import Mathlib

/-!
# Verification of the inline-commentary placement engine

Shallow embedding of the voice-comment placement engine of the
ink-and-memory journaling backend (`backend/stateful_analyzer.py`,
`backend/stateless_analyzer.py`, `backend/server.py`), together with
proofs of the invariants and behavioural properties claimed for it.

Text is modelled as `List Char`; Python's case-insensitive operations
(`str.lower`, `str.find`, `in`) are embedded character-wise.
-/

namespace Ink

/-- Text and phrases: Python strings modelled as character lists. -/
abbrev Str := List Char

/-- Python `str.lower()`, character-wise. -/
def lowerStr (s : Str) : Str := s.map Char.toLower

/-- Tests that `needle` occurs at the very start of `hay` (helper for substring search). -/
def startsWith : Str → Str → Bool
  | [], _ => true
  | _ :: _, [] => false
  | a :: as, b :: bs => if a = b then startsWith as bs else false

/-- Scan `hay` for the first position `≥ i` (absolute index `i` given for the
current head) where `needle` occurs; embeds the scan done by `str.find`. -/
def findAux (needle : Str) : Str → Nat → Option Nat
  | [], i => if startsWith needle [] then some i else none
  | b :: bs, i =>
    if startsWith needle (b :: bs) then some i else findAux needle bs (i + 1)

/-- Python `hay.find(needle)`: index of the first occurrence, or `none`. -/
def findSub (hay needle : Str) : Option Nat := findAux needle hay 0

/-- Python `hay.find(needle, start)`: first occurrence at index `≥ start`. -/
def findSubFrom (hay needle : Str) (start : Nat) : Option Nat :=
  findAux needle (hay.drop start) start

/-- Python `needle in hay` (substring test). -/
def containsSub (hay needle : Str) : Bool := (findSub hay needle).isSome

/-- The sentence-terminator class of `_get_sentences`:
`re.split(r'[.!?。！？，]+|\n+', text)` — Latin `.!?`, CJK `。！？，`, newline. -/
def isSentSep (c : Char) : Bool :=
  c = '.' ∨ c = '!' ∨ c = '?' ∨ c = '。' ∨ c = '！' ∨ c = '？' ∨ c = '，' ∨ c = '\n'

/-- Split the text at every sentence-terminator character (runs of terminators
produce empty segments, which are dropped after stripping — equivalent to the
`+`-quantified regex split in `_get_sentences`). -/
def splitSents : Str → List Str
  | [] => [[]]
  | c :: rest =>
    if isSentSep c then [] :: splitSents rest
    else
      match splitSents rest with
      | [] => [[c]]
      | s :: ss => (c :: s) :: ss

/-- Python `str.strip()`: drop whitespace from both ends. -/
def stripStr (s : Str) : Str :=
  ((s.dropWhile Char.isWhitespace).reverse.dropWhile Char.isWhitespace).reverse

/-- Embeds `StatefulVoiceAnalyzer._get_sentences`: split on terminators, strip each
piece, keep the non-empty ones. -/
def getSentences (t : Str) : List Str :=
  ((splitSents t).map stripStr).filter (fun s => s ≠ [])

/-- The sentence-position scan of `_enforce_density` (and of the prompt
builder): locate each sentence by a case-insensitive forward search whose
cursor only advances past the previous match; a sentence that fails to
locate is skipped with the cursor unmoved.  `tl` is the lowered text.
Returns `(start, end)` character spans. -/
def sentPositionsAux (tl : Str) : List Str → Nat → List (Nat × Nat)
  | [], _ => []
  | s :: ss, pos =>
    match findSubFrom tl (lowerStr s) pos with
    | some start =>
      (start, start + s.length) :: sentPositionsAux tl ss (start + s.length)
    | none => sentPositionsAux tl ss pos

/-- Sentence spans of a text, as computed fresh on every call. -/
def sentPositions (t : Str) : List (Nat × Nat) :=
  sentPositionsAux (lowerStr t) (getSentences t) 0

/-- First sentence span containing position `p`
(`start <= phrase_pos < end`, first match wins), reported by index;
`k` is the index of the current head span. -/
def containingAux : List (Nat × Nat) → Nat → Nat → Option Nat
  | [], _, _ => none
  | (s, e) :: rest, p, k =>
    if s ≤ p ∧ p < e then some k else containingAux rest p (k + 1)

/-- Index of the first sentence span containing position `p`. -/
def containingSentence (positions : List (Nat × Nat)) (p : Nat) : Option Nat :=
  containingAux positions p 0

/-- The sentence a phrase maps to: first case-insensitive occurrence of the
phrase, then first containing sentence span — the location rule used both to
seed `sentence_has_comment` and to place a candidate in `_enforce_density`. -/
def sentIdxAt (t : Str) (positions : List (Nat × Nat)) (phrase : Str) : Option Nat :=
  (findSub (lowerStr t) (lowerStr phrase)).bind (containingSentence positions)

/-- Sentence index of a phrase against the current text. -/
def sentIdxOf (t phrase : Str) : Option Nat := sentIdxAt t (sentPositions t) phrase

/-- First-occurrence character range `[pos, pos + len)` of a phrase, the range
recorded by `_get_commented_regions` for the first occurrence. -/
def occRange (t phrase : Str) : Option (Nat × Nat) :=
  (findSub (lowerStr t) (lowerStr phrase)).map (fun p => (p, p + phrase.length))

/-- Two half-open ranges `[s, e)` intersect. -/
def rangesIntersect (r₁ r₂ : Nat × Nat) : Prop :=
  max r₁.1 r₂.1 < min r₁.2 r₂.2

instance (r₁ r₂ : Nat × Nat) : Decidable (rangesIntersect r₁ r₂) := by
  unfold rangesIntersect; infer_instance

/-! ## Data model: comments, persona catalog, analyzer state -/

/-- A comment dict of the stateful analyzer:
`{phrase, voice, comment, icon, color}`. -/
structure SComment where
  phrase : Str
  voice : Str
  comment : Str
  icon : Str
  color : Str
deriving DecidableEq, Repr

/-- One persona-catalog entry (`VOICE_ARCHETYPES` value / deck voice):
`name` is optional — the code reads it with `.get("name", key)`.
The prompt-only fields (`systemPrompt` / `tagline`) are omitted: they feed the
generator prompt and never the placement logic. -/
structure Archetype where
  name : Option Str
  icon : Str
  color : Str
deriving DecidableEq, Repr

/-- A persona catalog: insertion-ordered dict from persona id to entry. -/
abbrev Catalog := List (Str × Archetype)

/-- Dict lookup on an association list (first binding wins). -/
def alookup {α : Type} : List (Str × α) → Str → Option α
  | [], _ => none
  | (k, v) :: rest, q => if k = q then some v else alookup rest q

/-! ## Stateful analyzer (`backend/stateful_analyzer.py`) -/

/-- Embeds `StatefulVoiceAnalyzer._prune_deleted_comments`: keep exactly the comments
whose phrase is still a case-insensitive substring of the text. -/
def pruneDeleted (comments : List SComment) (t : Str) : List SComment :=
  comments.filter (fun c => containsSub (lowerStr t) (lowerStr c.phrase))

/-- The seeding loop of `_enforce_density`: the set of sentence indices already
holding a committed comment (each comment placed by the first occurrence of
its phrase; comments whose phrase is absent or falls outside every sentence
span mark nothing). -/
def occupiedSentences (comments : List SComment) (t : Str)
    (positions : List (Nat × Nat)) : List Nat :=
  comments.filterMap (fun c => sentIdxAt t positions c.phrase)

/-- The filtering loop of `_enforce_density`: walk the new candidates with the
mutable `sentence_has_comment` occupancy (`occ`); a candidate whose phrase is
not found is dropped, one whose containing sentence is occupied is dropped,
anything else is accepted (and, when it has a containing sentence, occupies
it). -/
def densityFilter (t : Str) (positions : List (Nat × Nat)) :
    List SComment → List Nat → List SComment
  | [], _ => []
  | c :: rest, occ =>
    match findSub (lowerStr t) (lowerStr c.phrase) with
    | none => densityFilter t positions rest occ
    | some p =>
      match containingSentence positions p with
      | some i =>
        if i ∈ occ then densityFilter t positions rest occ
        else c :: densityFilter t positions rest (i :: occ)
      | none => c :: densityFilter t positions rest occ

/-- Embeds `StatefulVoiceAnalyzer._enforce_density`: max one comment per sentence. -/
def enforceDensity (comments newComments : List SComment) (t : Str) :
    List SComment :=
  densityFilter t (sentPositions t) newComments
    (occupiedSentences comments t (sentPositions t))

/-- The icon/color/name normalization loop of `StatefulVoiceAnalyzer.analyze`
(step "Override LLM's icon/color with actual config values"): only applied
when the returned voice key exists in the catalog; the display name falls back
to the archetype key when the entry has no `name`. -/
def normalizeVoice (catalog : Catalog) (v : SComment) : SComment :=
  match alookup catalog v.voice with
  | some a => { v with icon := a.icon, color := a.color,
                       voice := a.name.getD v.voice }
  | none => v

/-- Per-session engine state: `self.comments` and `self.last_text`. -/
structure AnalyzerState where
  comments : List SComment
  lastText : Str
deriving DecidableEq, Repr

/-- A freshly constructed `StatefulVoiceAnalyzer`. -/
def freshAnalyzer : AnalyzerState := ⟨[], []⟩

/-- Outcome of the `agent.run` call inside `analyze`, as seen by the engine:
either a failure (`not result.is_success or not result.has_data()`) or a list
of extracted new voices (already flattened across the single/multi schema). -/
inductive AgentResult where
  | failure
  | success (newVoices : List SComment)
deriving DecidableEq, Repr

/-- Embeds `StatefulVoiceAnalyzer.analyze`: prune deleted comments, bail out on a
too-short text or a failed generator call returning the (pruned) existing
comments, otherwise normalize the new voices from the catalog, filter them
through the density rules and append the survivors.  `minTextLength` embeds
the externally supplied `config.MIN_TEXT_LENGTH`; prompt construction is
omitted (it only feeds the external generator). -/
def analyzeStep (minTextLength : Nat) (catalog : Catalog) (st : AnalyzerState)
    (t : Str) (llm : AgentResult) : AnalyzerState :=
  let pruned := pruneDeleted st.comments t
  if (stripStr t).length < minTextLength then { st with comments := pruned }
  else
    match llm with
    | .failure => { st with comments := pruned }
    | .success vs =>
      let norm := vs.map (normalizeVoice catalog)
      let filtered := enforceDensity pruned norm t
      { comments := pruned ++ filtered, lastText := t }

/-! ## Session registry (`backend/stateful_analyzer.py`, module level) -/

/-- Embeds `SESSION_TTL = 3600` — one hour of inactivity. -/
def SESSION_TTL : Nat := 3600

/-- The module-level registry: `_user_analyzers` and `_last_access`,
insertion-ordered dicts keyed by session id.  Timestamps are seconds. -/
structure Registry where
  analyzers : List (Str × AnalyzerState)
  lastAccess : List (Str × Nat)
deriving DecidableEq, Repr

/-- The empty registry at module load. -/
def emptyRegistry : Registry := ⟨[], []⟩

/-- Python dict assignment `d[k] = v`: update in place when the key exists,
append at the end otherwise. -/
def dictInsert {α : Type} (l : List (Str × α)) (k : Str) (v : α) :
    List (Str × α) :=
  if (alookup l k).isSome then
    l.map (fun p => if p.1 = k then (k, v) else p)
  else l ++ [(k, v)]

/-- Embeds `cleanup_stale_sessions`: collect the ids whose last access is more than
`SESSION_TTL` seconds ago and delete them from both dicts.  (`now - last` is
Python real subtraction; on `Nat` the truncated difference gives the same
staleness verdict since `SESSION_TTL > 0`.) -/
def cleanupStaleSessions (reg : Registry) (now : Nat) : Registry :=
  let stale :=
    (reg.lastAccess.filter (fun p => SESSION_TTL < now - p.2)).map Prod.fst
  { analyzers := reg.analyzers.filter (fun p => p.1 ∉ stale),
    lastAccess := reg.lastAccess.filter (fun p => p.1 ∉ stale) }

/-- Embeds `get_analyzer`: fetch-or-create the engine for a session id and stamp
`_last_access[session_id] = time.time()`.  Returns the engine used by the
caller together with the updated registry. -/
def getAnalyzer (reg : Registry) (sid : Str) (now : Nat) :
    AnalyzerState × Registry :=
  match alookup reg.analyzers sid with
  | some a =>
    (a, { reg with lastAccess := dictInsert reg.lastAccess sid now })
  | none =>
    (freshAnalyzer,
      { analyzers := dictInsert reg.analyzers sid freshAnalyzer,
        lastAccess := dictInsert reg.lastAccess sid now })

/-- Embeds `analyze_stateful`: lazy eviction sweep, fetch-or-create, run the
engine; since `analyze` mutates the fetched engine in place, the updated
engine is written back under its session id. -/
def analyzeStateful (minTextLength : Nat) (catalog : Catalog) (reg : Registry)
    (sid : Str) (t : Str) (now : Nat) (llm : AgentResult) :
    List SComment × Registry :=
  let reg₁ := cleanupStaleSessions reg now
  let (a, reg₂) := getAnalyzer reg₁ sid now
  let a' := analyzeStep minTextLength catalog a t llm
  (a'.comments,
    { reg₂ with analyzers := dictInsert reg₂.analyzers sid a' })

/-! ## Stateless analyzer (`backend/stateless_analyzer.py`) -/

/-- The `VoiceTrigger` pydantic payload returned by the generator for the
stateless analyzer (`reasoning` is free-form and never inspected). -/
structure RawVoice where
  reasoning : Str
  phrase : Str
  voiceId : Str
  comment : Str
deriving DecidableEq, Repr

/-- Outcome of the single `agent.run` call of `analyze_stateless`: failure,
or a `SingleVoiceAnalysis` whose `voice` field may be `null`. -/
inductive StatelessLlm where
  | failure
  | success (voice : Option RawVoice)
deriving DecidableEq, Repr

/-- One returned voice of the stateless analyzer, after catalog
normalization: `{phrase, voice_id, voice, comment, icon, color}`. -/
structure ResultVoice where
  phrase : Str
  voiceId : Str
  voice : Str
  comment : Str
  icon : Str
  color : Str
deriving DecidableEq, Repr

/-- The dict returned by `analyze_stateless`:
`{"voices": [...], "new_voices_added": n}`. -/
structure StatelessResult where
  voices : List ResultVoice
  newVoicesAdded : Nat
deriving DecidableEq, Repr

/-- Embeds `analyze_stateless`, result path (lines handling the generator outcome):
a failed call, a `null` voice, an empty or unknown `voice_id` all yield the
empty result; a valid voice is normalized from the catalog (icon and color
from the archetype, display name from the archetype's `name` with the id as
fallback) and returned as the single new voice.  The prompt-building inputs
(text, applied comments, blacklists, meta/state prompts) only shape the
prompt sent to the external generator and do not touch this result logic. -/
def analyzeStateless (catalog : Catalog) (llm : StatelessLlm) :
    StatelessResult :=
  match llm with
  | .failure => ⟨[], 0⟩
  | .success none => ⟨[], 0⟩
  | .success (some v) =>
    if v.voiceId = [] then ⟨[], 0⟩
    else
      match alookup catalog v.voiceId with
      | none => ⟨[], 0⟩
      | some a =>
        ⟨[{ phrase := v.phrase, voiceId := v.voiceId,
            voice := a.name.getD v.voiceId, comment := v.comment,
            icon := a.icon, color := a.color }], 1⟩

/-! ## Generation orchestrator and candidate validator

The bounded retry chain and the candidate validator that classifies
NOT_FOUND / OVERLAP run in the client of `analyze_text`
(`server.py` performs exactly one generation attempt per request and the
validating caller is not part of the backend sources), so they are modelled
here from the specification (§4.2–§4.4). -/

/-- Modelled from the spec: one candidate
`{phrase, persona_id, comment}` proposed by the external commentary
generator (§4.3, §6). -/
structure Candidate where
  phrase : Str
  personaId : Str
  comment : Str
deriving DecidableEq, Repr

/-- Modelled from the spec: a generator answer for one attempt — a
timeout/malformed failure, a voluntary `null` ("nothing to say"), or one
candidate (§4.4, §6). -/
inductive GenResponse where
  | failure
  | nothing
  | candidate (c : Candidate)
deriving DecidableEq, Repr

/-- Modelled from the spec: the validator's classification of one
candidate (§4.3). -/
inductive Verdict where
  | accept
  | invalid
  | notFound
  | overlap
deriving DecidableEq, Repr

/-- Modelled from the spec: the RejectionRecord of one retry chain — the
cumulative `not_found` and `overlapping` phrase sets (§3, §4.4). -/
structure ChainState where
  notFound : List Str
  overlapping : List Str
deriving DecidableEq, Repr

/-- Occupied character ranges of the committed comments: the first
case-insensitive occurrence range of each phrase (§4.2). -/
def occupiedRanges (t : Str) (committed : List Candidate) :
    List (Nat × Nat) :=
  committed.filterMap (fun c => occRange t c.phrase)

/-- Occupied sentence indices of the committed comments (§4.2). -/
def occupiedIdxs (t : Str) (committed : List Candidate) : List Nat :=
  committed.filterMap (fun c => sentIdxOf t c.phrase)

/-- Modelled from the spec: the candidate validator (§4.3), with the
checks in the specified order, short-circuiting on the first failure:
(a) persona known and phrase non-empty, else `invalid`;
(blacklist) a phrase already classified NOT_FOUND in this chain is a
permanent hallucination blacklist entry and is rejected outright (§4.4),
even when the current text would now contain it;
(b) phrase is a case-insensitive substring of the text, else `notFound`;
(c) the occurrence range intersects no occupied range and the containing
sentence is unoccupied, else `overlap`; otherwise `accept`. -/
def validate (catalog : Catalog) (t : Str) (committed : List Candidate)
    (cs : ChainState) (c : Candidate) : Verdict :=
  if (alookup catalog c.personaId).isNone ∨ c.phrase = [] then .invalid
  else if c.phrase ∈ cs.notFound then .notFound
  else
    match findSub (lowerStr t) (lowerStr c.phrase) with
    | none => .notFound
    | some p =>
      if ((occupiedRanges t committed).any
            (fun r => decide (rangesIntersect (p, p + c.phrase.length) r)))
          || (Option.any (fun i => decide (i ∈ occupiedIdxs t committed))
                (containingSentence (sentPositions t) p)) then .overlap
      else .accept

/-- Modelled from the spec: the bounded retry loop of the Generation
Orchestrator (§4.4).  `attempts` carries, for each remaining attempt, the
text in effect and the generator's response (the list's length is the
configured maximum, e.g. 3–5); the chain stops early on an accepted
candidate or a voluntary `null`.  Returns the accepted candidate (or `none`
for "no new comment"), the number of attempts consumed, and the final
rejection record. -/
def orchestrate (catalog : Catalog) (committed : List Candidate) :
    ChainState → List (Str × GenResponse) →
    Option Candidate × Nat × ChainState
  | cs, [] => (none, 0, cs)
  | cs, (t, resp) :: rest =>
    match resp with
    | .failure =>
      let r := orchestrate catalog committed cs rest
      (r.1, r.2.1 + 1, r.2.2)
    | .nothing => (none, 1, cs)
    | .candidate c =>
      match validate catalog t committed cs c with
      | .accept => (some c, 1, cs)
      | .invalid =>
        let r := orchestrate catalog committed cs rest
        (r.1, r.2.1 + 1, r.2.2)
      | .notFound =>
        let r := orchestrate catalog committed
          { cs with notFound := c.phrase :: cs.notFound } rest
        (r.1, r.2.1 + 1, r.2.2)
      | .overlap =>
        let r := orchestrate catalog committed
          { cs with overlapping := c.phrase :: cs.overlapping } rest
        (r.1, r.2.1 + 1, r.2.2)

/-- The count of new comments the request reports for a chain outcome
(`new_voices_added`: 0 on "no new comment", 1 on an accepted candidate). -/
def outcomeCount : Option Candidate → Nat
  | none => 0
  | some _ => 1

/-! ## Stated properties -/

/-- Two comments do not claim the same sentence: the first maps to no
sentence at all, or the two map differently. -/
def sentDistinct (t : Str) (a b : SComment) : Prop :=
  sentIdxOf t a.phrase = none ∨ sentIdxOf t a.phrase ≠ sentIdxOf t b.phrase

instance (t : Str) : DecidableRel (sentDistinct t) := fun a b => by
  unfold sentDistinct; infer_instance

/-- Sentence exclusivity of a comment list against a text: no two comments
map to the same sentence index. -/
def SentExclusive (t : Str) (cs : List SComment) : Prop :=
  cs.Pairwise (sentDistinct t)

instance (t : Str) (cs : List SComment) : Decidable (SentExclusive t cs) := by
  unfold SentExclusive; infer_instance

/-- Two comments' first-occurrence character ranges do not intersect
(vacuously true for an absent phrase). -/
def rangeDistinct (t : Str) (a b : SComment) : Prop :=
  ∀ ra rb, occRange t a.phrase = some ra → occRange t b.phrase = some rb →
    ¬ rangesIntersect ra rb

/-- Pairwise disjointness of the comments' occurrence ranges. -/
def RangeExclusive (t : Str) (cs : List SComment) : Prop :=
  cs.Pairwise (rangeDistinct t)

/-- The first occurrence of a phrase, when it has a containing sentence,
ends inside that sentence's span (the occurrence does not cross a sentence
boundary). -/
def phraseWithinSentence (t phrase : Str) : Bool :=
  match findSub (lowerStr t) (lowerStr phrase) with
  | none => true
  | some p =>
    match containingSentence (sentPositions t) p with
    | none => true
    | some j =>
      match (sentPositions t).get? j with
      | none => true
      | some (_, e) => p + phrase.length ≤ e

/-- Bookkeeping invariant of the session registry: the analyzer dict and the
last-access dict hold exactly the same session ids. -/
def sameKeys (reg : Registry) : Prop :=
  ∀ sid, (alookup reg.analyzers sid).isSome ↔ (alookup reg.lastAccess sid).isSome

/-! ## Concrete demonstration data -/

/-- Demo comment anchored at "anxious" (sentence 0 of `demoText1`). -/
def demoA : SComment :=
  ⟨"anxious".data, "v1".data, "c1".data, "brain".data, "blue".data⟩

/-- Demo comment anchored at "hope" (sentence 1 of `demoText1`). -/
def demoB : SComment :=
  ⟨"hope".data, "v2".data, "c2".data, "heart".data, "pink".data⟩

/-- Two-sentence text for the first demo call. -/
def demoText1 : Str := "anxious about the exam. hope it goes well.".data

/-- The same text with the first period deleted: both previously commented
sentences merge into one. -/
def demoText2 : Str := "anxious about the exam hope it goes well.".data

/-- Session state after a first analysis call on `demoText1` that accepts
both demo candidates. -/
def demoSt1 : AnalyzerState :=
  analyzeStep 10 [] freshAnalyzer demoText1 (.success [demoA, demoB])

/-- Session state after a further analysis call on the merged text. -/
def demoSt2 : AnalyzerState := analyzeStep 10 [] demoSt1 demoText2 .failure

/-- Two-sentence text for the range-overlap demo. -/
def demoTextR : Str := "the cat sat. dog ran.".data

/-- Demo candidate whose phrase spans the boundary of sentences 0 and 1. -/
def demoP : SComment :=
  ⟨"sat. dog".data, "v1".data, "c1".data, "brain".data, "blue".data⟩

/-- Demo candidate inside sentence 1, overlapping `demoP`'s range. -/
def demoQ : SComment :=
  ⟨"dog ran".data, "v2".data, "c2".data, "heart".data, "pink".data⟩

/-- Session state after one call accepting both range-overlapping demo
candidates. -/
def demoStR : AnalyzerState :=
  analyzeStep 10 [] freshAnalyzer demoTextR (.success [demoP, demoQ])

/-- A one-entry demo catalog. -/
def demoCatalog : Catalog :=
  [("holder".data, ⟨some "Holder".data, "heart".data, "pink".data⟩)]

/-- A generator voice whose persona key is not in the demo catalog and whose
icon and color are generator-invented. -/
def demoBogus : SComment :=
  ⟨"hello".data, "bogus".data, "hi".data, "x".data, "y".data⟩

/-- Session state after a stateful call committing the unknown-persona demo
voice. -/
def demoStBogus : AnalyzerState :=
  analyzeStep 10 demoCatalog freshAnalyzer "hello there friend.".data
    (.success [demoBogus])

/-- A demo registry holding one session last touched at time 0. -/
def demoRegStale : Registry :=
  ⟨[("s".data, demoSt1)], [("s".data, 0)]⟩

/-- Demo chain text that does contain the phrase "final exam". -/
def demoChainText : Str := "the final exam is here.".data

/-- Demo candidate proposing the blacklisted phrase "final exam". -/
def demoNFCand : Candidate :=
  ⟨"final exam".data, "holder".data, "watch out".data⟩

/-- Demo rejection record in which "final exam" was already classified
NOT_FOUND earlier in the chain. -/
def demoChainCS : ChainState := ⟨["final exam".data], []⟩

/-! ## Supporting lemmas: association lists -/

theorem alookup_mem {α : Type} {l : List (Str × α)} {k : Str} {v : α}
    (h : alookup l k = some v) : (k, v) ∈ l := by
  induction l with
  | nil => simp [alookup] at h
  | cons p rest ih =>
    obtain ⟨k', v'⟩ := p
    by_cases hk : k' = k
    · subst hk
      simp [alookup] at h
      subst h
      exact List.mem_cons_self _ _
    · simp only [alookup, if_neg hk] at h
      exact List.mem_cons_of_mem _ (ih h)

theorem alookup_filter_key {α : Type} (f : Str → Bool) (l : List (Str × α))
    (k : Str) :
    (alookup (l.filter (fun p => f p.1)) k).isSome
      ↔ (alookup l k).isSome ∧ f k = true := by
  induction l with
  | nil => simp [alookup]
  | cons p rest ih =>
    obtain ⟨k', v'⟩ := p
    rw [List.filter_cons]
    by_cases hf : f (k', v').1
    · rw [if_pos hf]
      by_cases hk : k' = k
      · subst hk
        simp only [alookup, if_pos rfl, Option.isSome_some, true_and]
        simpa using hf
      · simp only [alookup, if_neg hk]
        exact ih
    · rw [if_neg hf]
      by_cases hk : k' = k
      · subst hk
        simp only [alookup, if_pos rfl, Option.isSome_some, true_and]
        rw [ih]
        simp only [Bool.not_eq_true] at hf
        simp [hf]
      · simp only [alookup, if_neg hk]
        exact ih

theorem alookup_filter_not_mem {α : Type} {l : List (Str × α)}
    {bad : List Str} {k : Str} (hk : k ∈ bad) :
    alookup (l.filter (fun p => p.1 ∉ bad)) k = none := by
  induction l with
  | nil => rfl
  | cons p rest ih =>
    obtain ⟨k', v'⟩ := p
    rw [List.filter_cons]
    by_cases hp : (k', v').1 ∈ bad
    · rw [if_neg (by simpa using hp)]
      exact ih
    · rw [if_pos (by simpa using hp)]
      have hne : k' ≠ k := fun he => hp (by simpa [he] using hk)
      simp only [alookup, if_neg hne]
      exact ih

theorem alookup_update_isSome {α : Type} (l : List (Str × α)) (k q : Str)
    (v : α) :
    (alookup (l.map (fun p => if p.1 = k then (k, v) else p)) q).isSome
      ↔ (alookup l q).isSome := by
  induction l with
  | nil => simp [alookup]
  | cons p rest ih =>
    obtain ⟨k', v'⟩ := p
    rw [List.map_cons]
    by_cases hpk : (k', v').1 = k
    · rw [if_pos hpk]
      simp only at hpk
      subst hpk
      by_cases hq : k' = q
      · subst hq
        simp [alookup]
      · simp only [alookup, if_neg hq]
        exact ih
    · rw [if_neg hpk]
      by_cases hq : k' = q
      · subst hq
        simp [alookup]
      · simp only [alookup, if_neg hq]
        exact ih

theorem alookup_append_single_isSome {α : Type} (l : List (Str × α))
    (k q : Str) (v : α) :
    (alookup (l ++ [(k, v)]) q).isSome
      ↔ ((alookup l q).isSome ∨ q = k) := by
  induction l with
  | nil =>
    by_cases hk : k = q
    · simp [alookup, hk]
    · simp only [List.nil_append, alookup, if_neg hk, Option.isSome_none,
        Bool.false_eq_true, false_iff, false_or]
      exact fun h => hk h.symm
  | cons p rest ih =>
    obtain ⟨k', v'⟩ := p
    by_cases hq : k' = q
    · simp [alookup, hq]
    · simp only [List.cons_append, alookup, if_neg hq]
      exact ih

theorem alookup_filter_stale_isSome {α : Type} (bad : List Str)
    (l : List (Str × α)) (k : Str) :
    (alookup (l.filter (fun p => p.1 ∉ bad)) k).isSome
      ↔ (alookup l k).isSome ∧ k ∉ bad := by
  induction l with
  | nil => simp [alookup]
  | cons p rest ih =>
    obtain ⟨k', v'⟩ := p
    rw [List.filter_cons]
    by_cases hp : (k', v').1 ∈ bad
    · rw [if_neg (by simpa using hp)]
      by_cases hk : k' = k
      · subst hk
        rw [ih]
        simp only at hp
        simp [alookup, hp]
      · simp only [alookup, if_neg hk]
        exact ih
    · rw [if_pos (by simpa using hp)]
      by_cases hk : k' = k
      · subst hk
        simp only at hp
        simp [alookup, hp]
      · simp only [alookup, if_neg hk]
        exact ih

theorem alookup_dictInsert_isSome {α : Type} (l : List (Str × α)) (k q : Str)
    (v : α) :
    (alookup (dictInsert l k v) q).isSome
      ↔ ((alookup l q).isSome ∨ q = k) := by
  unfold dictInsert
  by_cases hex : (alookup l k).isSome
  · simp only [hex, if_true, alookup_update_isSome]
    constructor
    · exact Or.inl
    · rintro (h | rfl)
      · exact h
      · exact hex
  · simp only [hex, Bool.false_eq_true, if_false]
    exact alookup_append_single_isSome l k q v

/-! ## Supporting lemmas: session registry -/

theorem cleanup_lookup_none {reg : Registry} {sid : Str} {last now : Nat}
    (hlast : alookup reg.lastAccess sid = some last)
    (hstale : SESSION_TTL < now - last) :
    alookup (cleanupStaleSessions reg now).analyzers sid = none ∧
    alookup (cleanupStaleSessions reg now).lastAccess sid = none := by
  have hmem : (sid, last) ∈ reg.lastAccess := alookup_mem hlast
  have hsid : sid ∈
      ((reg.lastAccess.filter
        (fun p => SESSION_TTL < now - p.2)).map Prod.fst) :=
    List.mem_map_of_mem Prod.fst
      (List.mem_filter.mpr ⟨hmem, by simpa using hstale⟩)
  exact ⟨alookup_filter_not_mem hsid, alookup_filter_not_mem hsid⟩

theorem sameKeys_cleanup {reg : Registry} (now : Nat) (h : sameKeys reg) :
    sameKeys (cleanupStaleSessions reg now) := by
  intro q
  unfold cleanupStaleSessions
  simp only
  rw [alookup_filter_stale_isSome, alookup_filter_stale_isSome, h q]

theorem sameKeys_getAnalyzer {reg : Registry} (sid : Str) (now : Nat)
    (h : sameKeys reg) :
    sameKeys ((getAnalyzer reg sid now).2) ∧
    (alookup ((getAnalyzer reg sid now).2).lastAccess sid).isSome = true := by
  unfold getAnalyzer
  cases hex : alookup reg.analyzers sid with
  | some a =>
    simp only
    constructor
    · intro q
      simp only [alookup_dictInsert_isSome]
      rw [← h q]
      constructor
      · exact Or.inl
      · rintro (hq | rfl)
        · exact hq
        · rw [hex]; rfl
    · simp [alookup_dictInsert_isSome]
  | none =>
    simp only
    constructor
    · intro q
      simp only [alookup_dictInsert_isSome, h q]
    · simp [alookup_dictInsert_isSome]

/-! ## Claim C6 — idle TTL eviction -/

/-- C6: a session whose last access is older than the TTL (`SESSION_TTL`,
3600 s) has all its state discarded by the lazy sweep run at the start of the
next `analyze_stateful` request — both registry dicts lose the id — and the
request itself then runs on a freshly created analyzer, so its result equals
that of the session's very first call, starting from an empty comment
list. -/
theorem idle_ttl_eviction_resets_session (minLen : Nat) (catalog : Catalog)
    (reg : Registry) (sid t : Str) (now last : Nat) (llm : AgentResult)
    (hlast : alookup reg.lastAccess sid = some last)
    (hstale : SESSION_TTL < now - last) :
    alookup (cleanupStaleSessions reg now).analyzers sid = none ∧
    alookup (cleanupStaleSessions reg now).lastAccess sid = none ∧
    (analyzeStateful minLen catalog reg sid t now llm).1
      = (analyzeStep minLen catalog freshAnalyzer t llm).comments := by
  obtain ⟨h1, h2⟩ := cleanup_lookup_none hlast hstale
  refine ⟨h1, h2, ?_⟩
  simp [analyzeStateful, getAnalyzer, h1]

/-- Witness for the TTL-eviction theorem: a registry whose only session was
last touched at time 0 is swept at time 4000. -/
theorem idle_ttl_eviction_resets_session_witness :
    alookup (cleanupStaleSessions demoRegStale 4000).analyzers "s".data
        = none ∧
    alookup (cleanupStaleSessions demoRegStale 4000).lastAccess "s".data
        = none ∧
    (analyzeStateful 10 [] demoRegStale "s".data demoText2 4000 .failure).1
      = (analyzeStep 10 [] freshAnalyzer demoText2 .failure).comments :=
  idle_ttl_eviction_resets_session 10 [] demoRegStale "s".data demoText2
    4000 0 .failure (by decide) (by decide)

/-! ## Claim C10 — registry bookkeeping invariant -/

/-- C10: after every registry operation — the stale-session sweep, the
fetch-or-create of an analyzer, and a whole `analyze_stateful` request —
the analyzer dict and the last-access dict contain exactly the same set of
session ids. -/
theorem registry_bookkeeping_invariant (minLen : Nat) (catalog : Catalog)
    (reg : Registry) (sid t : Str) (now : Nat) (llm : AgentResult)
    (h : sameKeys reg) :
    sameKeys (cleanupStaleSessions reg now) ∧
    sameKeys ((getAnalyzer reg sid now).2) ∧
    sameKeys ((analyzeStateful minLen catalog reg sid t now llm).2) := by
  refine ⟨sameKeys_cleanup now h, (sameKeys_getAnalyzer sid now h).1, ?_⟩
  have h1 := sameKeys_cleanup now h
  obtain ⟨h2, h3⟩ := sameKeys_getAnalyzer sid now h1
  unfold analyzeStateful
  rcases hg : getAnalyzer (cleanupStaleSessions reg now) sid now with ⟨a, reg₂⟩
  rw [hg] at h2 h3
  simp only at h2 h3
  simp only [hg]
  intro q
  simp only [alookup_dictInsert_isSome]
  constructor
  · rintro (hq | rfl)
    · exact (h2 q).mp hq
    · exact h3
  · intro hq
    exact Or.inl ((h2 q).mpr hq)

/-- Witness for the registry bookkeeping theorem at a concrete registry
holding one session. -/
theorem registry_bookkeeping_invariant_witness :
    sameKeys (cleanupStaleSessions demoRegStale 4000) ∧
    sameKeys ((getAnalyzer demoRegStale "s".data 4000).2) ∧
    sameKeys
      ((analyzeStateful 10 [] demoRegStale "s".data demoText2 4000
        .failure).2) :=
  registry_bookkeeping_invariant 10 [] demoRegStale "s".data demoText2 4000
    .failure (by
      intro q
      by_cases hq : "s".data = q <;>
        simp [demoRegStale, alookup, hq])

/-! ## Supporting lemmas: density filter -/

theorem densityFilter_subset (t : Str) (positions : List (Nat × Nat)) :
    ∀ (news : List SComment) (occ : List Nat),
      densityFilter t positions news occ ⊆ news := by
  intro news
  induction news with
  | nil =>
    intro occ x hx
    simp [densityFilter] at hx
  | cons d rest ih =>
    intro occ x hx
    cases hfind : findSub (lowerStr t) (lowerStr d.phrase) with
    | none =>
      simp only [densityFilter, hfind] at hx
      exact List.mem_cons_of_mem _ (ih occ hx)
    | some p =>
      cases hcont : containingSentence positions p with
      | none =>
        simp only [densityFilter, hfind, hcont] at hx
        rcases List.mem_cons.mp hx with rfl | hx
        · exact List.mem_cons_self _ _
        · exact List.mem_cons_of_mem _ (ih occ hx)
      | some i =>
        by_cases hocc : i ∈ occ
        · simp only [densityFilter, hfind, hcont, if_pos hocc] at hx
          exact List.mem_cons_of_mem _ (ih occ hx)
        · simp only [densityFilter, hfind, hcont, if_neg hocc] at hx
          rcases List.mem_cons.mp hx with rfl | hx
          · exact List.mem_cons_self _ _
          · exact List.mem_cons_of_mem _ (ih _ hx)

/-! ## Claim C8 — output cardinality of the stateless analyzer -/

/-- C8: every call of `analyze_stateless` returns a dict whose `voices`
list has length 0 or 1 and whose `new_voices_added` field equals that
length — never more than one new comment per call. -/
theorem stateless_output_cardinality (catalog : Catalog)
    (llm : StatelessLlm) :
    ((analyzeStateless catalog llm).voices.length = 0 ∨
      (analyzeStateless catalog llm).voices.length = 1) ∧
    (analyzeStateless catalog llm).newVoicesAdded
      = (analyzeStateless catalog llm).voices.length := by
  cases llm with
  | failure => exact ⟨Or.inl rfl, rfl⟩
  | success ov =>
    cases ov with
    | none => exact ⟨Or.inl rfl, rfl⟩
    | some v =>
      by_cases hid : v.voiceId = []
      · simp [analyzeStateless, hid]
      · cases halo : alookup catalog v.voiceId with
        | none => simp [analyzeStateless, hid, halo]
        | some a => simp [analyzeStateless, hid, halo]

/-! ## Claim C7 — generator-failure tolerance -/

/-- C7: a failed, malformed or unknown-persona response from the external
generator is absorbed as a failed attempt.  The stateless analyzer returns
the empty result (zero voices, count 0) on a failed call and on an empty or
unknown `voice_id`; the stateful analyzer returns the (pruned) existing
comments unchanged on a failed call; and in the modelled retry chain an
`invalid` verdict consumes one attempt while leaving both rejection
blacklists untouched.  All the embedded operations are total functions, so
no exception reaches the caller. -/
theorem generator_failure_tolerance :
    (∀ catalog : Catalog,
        analyzeStateless catalog .failure = ⟨[], 0⟩) ∧
    (∀ (catalog : Catalog) (v : RawVoice),
        v.voiceId = [] ∨ alookup catalog v.voiceId = none →
        analyzeStateless catalog (.success (some v)) = ⟨[], 0⟩) ∧
    (∀ (minLen : Nat) (catalog : Catalog) (st : AnalyzerState) (t : Str),
        (analyzeStep minLen catalog st t .failure).comments
          = pruneDeleted st.comments t) ∧
    (∀ (catalog : Catalog) (committed : List Candidate) (cs : ChainState)
        (t : Str) (c : Candidate) (rest : List (Str × GenResponse)),
        validate catalog t committed cs c = .invalid →
        orchestrate catalog committed cs ((t, .candidate c) :: rest)
          = ((orchestrate catalog committed cs rest).1,
             (orchestrate catalog committed cs rest).2.1 + 1,
             (orchestrate catalog committed cs rest).2.2)) := by
  refine ⟨fun catalog => rfl, ?_, ?_, ?_⟩
  · intro catalog v hv
    rcases hv with hid | halo
    · simp [analyzeStateless, hid]
    · by_cases hid : v.voiceId = []
      · simp [analyzeStateless, hid]
      · simp [analyzeStateless, hid, halo]
  · intro minLen catalog st t
    by_cases hl : (stripStr t).length < minLen <;>
      simp [analyzeStep, hl]
  · intro catalog committed cs t c rest hval
    simp [orchestrate, hval]

/-! ## Claim C9 — catalog-normalized presentation -/

/-- C9 counterexample: the stateful analyzer commits and returns a voice
whose persona key (`"bogus"`) has no catalog entry, keeping the
generator-invented icon `"x"` (no catalog entry carries that icon), so a
returned voice's icon does not always come from the catalog. -/
theorem catalog_normalization_counterexample :
    demoStBogus.comments = [demoBogus] ∧
    alookup demoCatalog demoBogus.voice = none ∧
    demoBogus.icon = "x".data ∧
    ∀ entry ∈ demoCatalog, entry.2.icon ≠ demoBogus.icon := by
  exact ⟨by decide, by decide, by decide, by decide⟩

/-- C9 (amended): every voice returned by the stateless analyzer has a
catalog entry for its `voice_id` and takes icon, color and display name
(name falling back to the id) from that entry; the stateful analyzer
normalizes a new voice from the catalog exactly when its persona key exists
there — an unknown-key voice passes through with the generator's own fields —
and every comment it returns is either a surviving old comment or one of
the generator's voices after this normalization step. -/
theorem catalog_normalization_amended :
    (∀ (catalog : Catalog) (llm : StatelessLlm) (v : ResultVoice),
        v ∈ (analyzeStateless catalog llm).voices →
        ∃ a, alookup catalog v.voiceId = some a ∧ v.icon = a.icon ∧
          v.color = a.color ∧ v.voice = a.name.getD v.voiceId) ∧
    (∀ (catalog : Catalog) (raw : SComment) (a : Archetype),
        alookup catalog raw.voice = some a →
        normalizeVoice catalog raw
          = { raw with icon := a.icon, color := a.color,
                       voice := a.name.getD raw.voice }) ∧
    (∀ (minLen : Nat) (catalog : Catalog) (st : AnalyzerState) (t : Str)
        (vs : List SComment) (c : SComment),
        c ∈ (analyzeStep minLen catalog st t (.success vs)).comments →
        c ∈ pruneDeleted st.comments t ∨
          ∃ raw ∈ vs, c = normalizeVoice catalog raw) := by
  refine ⟨?_, ?_, ?_⟩
  · intro catalog llm v hv
    cases llm with
    | failure => simp [analyzeStateless] at hv
    | success ov =>
      cases ov with
      | none => simp [analyzeStateless] at hv
      | some raw =>
        by_cases hid : raw.voiceId = []
        · simp [analyzeStateless, hid] at hv
        · cases halo : alookup catalog raw.voiceId with
          | none => simp [analyzeStateless, hid, halo] at hv
          | some a =>
            simp only [analyzeStateless, if_neg hid, halo,
              List.mem_singleton] at hv
            subst hv
            exact ⟨a, halo, rfl, rfl, rfl⟩
  · intro catalog raw a halo
    simp [normalizeVoice, halo]
  · intro minLen catalog st t vs c hc
    by_cases hl : (stripStr t).length < minLen
    · simp only [analyzeStep, if_pos hl] at hc
      exact Or.inl hc
    · simp only [analyzeStep, if_neg hl] at hc
      rcases List.mem_append.mp hc with hold | hnew
      · exact Or.inl hold
      · have hmem := densityFilter_subset t (sentPositions t) _ _ hnew
        rcases List.mem_map.mp hmem with ⟨raw, hraw, heq⟩
        exact Or.inr ⟨raw, hraw, heq.symm⟩

/-! ## Supporting lemmas: orchestrator -/

theorem orchestrate_attempts_le (catalog : Catalog)
    (committed : List Candidate) :
    ∀ (attempts : List (Str × GenResponse)) (cs : ChainState),
      (orchestrate catalog committed cs attempts).2.1 ≤ attempts.length := by
  intro attempts
  induction attempts with
  | nil =>
    intro cs
    simp [orchestrate]
  | cons a rest ih =>
    intro cs
    obtain ⟨t, resp⟩ := a
    cases resp with
    | failure =>
      simpa [orchestrate] using Nat.succ_le_succ (ih cs)
    | nothing =>
      simp only [orchestrate, List.length_cons]
      omega
    | candidate c =>
      cases hval : validate catalog t committed cs c with
      | accept =>
        simp only [orchestrate, hval, List.length_cons]
        omega
      | invalid =>
        simpa [orchestrate, hval] using Nat.succ_le_succ (ih cs)
      | notFound =>
        simpa [orchestrate, hval] using Nat.succ_le_succ (ih _)
      | overlap =>
        simpa [orchestrate, hval] using Nat.succ_le_succ (ih _)

theorem orchestrate_all_failure (catalog : Catalog)
    (committed : List Candidate) :
    ∀ (attempts : List (Str × GenResponse)) (cs : ChainState),
      (∀ a ∈ attempts, a.2 = GenResponse.failure) →
      (orchestrate catalog committed cs attempts).1 = none ∧
      (orchestrate catalog committed cs attempts).2.1 = attempts.length := by
  intro attempts
  induction attempts with
  | nil =>
    intro cs _
    exact ⟨rfl, rfl⟩
  | cons a rest ih =>
    intro cs hall
    obtain ⟨t, resp⟩ := a
    have hresp : resp = GenResponse.failure :=
      hall (t, resp) (List.mem_cons_self _ _)
    subst hresp
    have hrest := ih cs (fun b hb => hall b (List.mem_cons_of_mem _ hb))
    simp only [orchestrate, List.length_cons]
    exact ⟨hrest.1, by rw [hrest.2]⟩

theorem validate_accept_not_blacklisted {catalog : Catalog} {t : Str}
    {committed : List Candidate} {cs : ChainState} {c : Candidate}
    (h : validate catalog t committed cs c = .accept) :
    c.phrase ∉ cs.notFound := by
  intro hmem
  unfold validate at h
  by_cases hinv : (alookup catalog c.personaId).isNone ∨ c.phrase = []
  · rw [if_pos hinv] at h
    exact Verdict.noConfusion h
  · rw [if_neg hinv, if_pos hmem] at h
    exact Verdict.noConfusion h

/-! ## Claim C4 — bounded retry with explicit terminal outcome -/

/-- C4: the modelled Generation Orchestrator performs at most the
configured number of generation attempts — the attempt budget is the
length of the attempt list handed to it, never exceeded — and when a whole
budget of attempts fails it stops with the explicit "no new comment"
outcome (`none`, reported as zero voices) instead of retrying further.
The retry chain itself runs in the client of `analyze_text` (the backend
performs one generation attempt per request), so the loop is modelled from
spec §4.4. -/
theorem retry_chain_bounded (catalog : Catalog) (committed : List Candidate)
    (cs : ChainState) (attempts : List (Str × GenResponse)) :
    (orchestrate catalog committed cs attempts).2.1 ≤ attempts.length ∧
    ((∀ a ∈ attempts, a.2 = GenResponse.failure) →
      (orchestrate catalog committed cs attempts).1 = none ∧
      (orchestrate catalog committed cs attempts).2.1 = attempts.length) ∧
    ((orchestrate catalog committed cs attempts).1 = none →
      outcomeCount (orchestrate catalog committed cs attempts).1 = 0) := by
  refine ⟨orchestrate_attempts_le catalog committed attempts cs,
    orchestrate_all_failure catalog committed attempts cs, ?_⟩
  intro hnone
  rw [hnone]
  rfl

/-! ## Claim C5 — blacklist monotonicity for NOT_FOUND -/

/-- C5: within one retry chain of the modelled orchestrator, a phrase
already recorded in the chain's NOT_FOUND set is never the accepted
candidate of any later attempt — whatever texts the later attempts carry,
including ones that do contain the phrase — and it stays in the NOT_FOUND
set to the end of the chain.  The chain and its validator run in the
client of `analyze_text`, so they are modelled from spec §4.3–§4.4, whose
NOT_FOUND set is a permanent hallucination blacklist for the chain. -/
theorem notfound_blacklist_monotone (catalog : Catalog)
    (committed : List Candidate) (p : Str)
    (attempts : List (Str × GenResponse)) (cs : ChainState)
    (hp : p ∈ cs.notFound) :
    (∀ c, (orchestrate catalog committed cs attempts).1 = some c →
      c.phrase ≠ p) ∧
    p ∈ (orchestrate catalog committed cs attempts).2.2.notFound := by
  induction attempts generalizing cs with
  | nil =>
    exact ⟨fun c hc => Option.noConfusion hc, hp⟩
  | cons a rest ih =>
    obtain ⟨t, resp⟩ := a
    cases resp with
    | failure =>
      simpa only [orchestrate] using ih cs hp
    | nothing =>
      exact ⟨fun c hc => Option.noConfusion hc, hp⟩
    | candidate c =>
      cases hval : validate catalog t committed cs c with
      | accept =>
        refine ⟨?_, by simpa [orchestrate, hval] using hp⟩
        intro c' hc' hphr
        have : c' = c := by
          have h' : c = c' := by simpa [orchestrate, hval] using hc'
          exact h'.symm
        subst this
        exact validate_accept_not_blacklisted hval (hphr ▸ hp)
      | invalid =>
        simpa only [orchestrate, hval] using ih cs hp
      | notFound =>
        simpa only [orchestrate, hval] using
          ih { cs with notFound := c.phrase :: cs.notFound }
            (List.mem_cons_of_mem _ hp)
      | overlap =>
        simpa only [orchestrate, hval] using
          ih { cs with overlapping := c.phrase :: cs.overlapping } hp

/-- Witness for the NOT_FOUND monotonicity theorem: the phrase
"final exam" is blacklisted even though the attempt's text now contains it
verbatim; the chain still rejects the proposing candidate. -/
theorem notfound_blacklist_monotone_witness :
    (∀ c,
      (orchestrate demoCatalog [] demoChainCS
        [(demoChainText, .candidate demoNFCand)]).1 = some c →
      c.phrase ≠ "final exam".data) ∧
    "final exam".data ∈
      (orchestrate demoCatalog [] demoChainCS
        [(demoChainText, .candidate demoNFCand)]).2.2.notFound :=
  notfound_blacklist_monotone demoCatalog [] "final exam".data
    [(demoChainText, .candidate demoNFCand)] demoChainCS (by decide)

/-! ## Claim C3 — pruning of deleted phrases -/

/-- C3: every analysis call starts by pruning — on every path the returned
comment list extends the pruned old list, where pruning keeps a comment
exactly when its phrase is still a case-insensitive substring of the
current text — and on a call that accepts nothing (failed generator call,
or a generator call yielding no candidates) the result is exactly the
pruned old list, so deletions take effect even then. -/
theorem pruning_on_every_call (minLen : Nat) (catalog : Catalog)
    (st : AnalyzerState) (t : Str) (llm : AgentResult) :
    (∃ fresh, (analyzeStep minLen catalog st t llm).comments
        = pruneDeleted st.comments t ++ fresh) ∧
    (∀ c, c ∈ pruneDeleted st.comments t ↔
        c ∈ st.comments ∧
          containsSub (lowerStr t) (lowerStr c.phrase) = true) ∧
    ((analyzeStep minLen catalog st t .failure).comments
        = pruneDeleted st.comments t) ∧
    ((analyzeStep minLen catalog st t (.success [])).comments
        = pruneDeleted st.comments t) := by
  refine ⟨?_, ?_, ?_, ?_⟩
  · by_cases hl : (stripStr t).length < minLen
    · exact ⟨[], by simp [analyzeStep, hl]⟩
    · cases llm with
      | failure => exact ⟨[], by simp [analyzeStep, hl]⟩
      | success vs =>
        exact ⟨enforceDensity (pruneDeleted st.comments t)
          (vs.map (normalizeVoice catalog)) t, by simp [analyzeStep, hl]⟩
  · intro c
    simp [pruneDeleted, List.mem_filter]
  · by_cases hl : (stripStr t).length < minLen <;> simp [analyzeStep, hl]
  · by_cases hl : (stripStr t).length < minLen <;>
      simp [analyzeStep, hl, enforceDensity, densityFilter]

/-! ## Supporting lemmas: density filter and sentence occupancy -/

theorem densityFilter_avoid (t : Str) (positions : List (Nat × Nat)) :
    ∀ (news : List SComment) (occ : List Nat) (c : SComment),
      c ∈ densityFilter t positions news occ →
      ∀ i, sentIdxAt t positions c.phrase = some i → i ∉ occ := by
  intro news
  induction news with
  | nil =>
    intro occ c hc
    simp [densityFilter] at hc
  | cons d rest ih =>
    intro occ c hc i hidx hiocc
    cases hfind : findSub (lowerStr t) (lowerStr d.phrase) with
    | none =>
      simp only [densityFilter, hfind] at hc
      exact ih occ c hc i hidx hiocc
    | some p =>
      cases hcont : containingSentence positions p with
      | none =>
        simp only [densityFilter, hfind, hcont] at hc
        rcases List.mem_cons.mp hc with rfl | hc
        · rw [sentIdxAt, hfind] at hidx
          simp [hcont] at hidx
        · exact ih occ c hc i hidx hiocc
      | some j =>
        by_cases hocc : j ∈ occ
        · simp only [densityFilter, hfind, hcont, if_pos hocc] at hc
          exact ih occ c hc i hidx hiocc
        · simp only [densityFilter, hfind, hcont, if_neg hocc] at hc
          rcases List.mem_cons.mp hc with rfl | hc
          · rw [sentIdxAt, hfind] at hidx
            simp only [Option.some_bind, hcont, Option.some.injEq] at hidx
            exact hocc (hidx ▸ hiocc)
          · exact ih (j :: occ) c hc i hidx (List.mem_cons_of_mem _ hiocc)

theorem densityFilter_pairwise (t : Str) (positions : List (Nat × Nat)) :
    ∀ (news : List SComment) (occ : List Nat),
      (densityFilter t positions news occ).Pairwise
        (fun a b => ∀ i, sentIdxAt t positions a.phrase = some i →
          sentIdxAt t positions b.phrase ≠ some i) := by
  intro news
  induction news with
  | nil =>
    intro occ
    simp [densityFilter]
  | cons d rest ih =>
    intro occ
    cases hfind : findSub (lowerStr t) (lowerStr d.phrase) with
    | none =>
      simp only [densityFilter, hfind]
      exact ih occ
    | some p =>
      cases hcont : containingSentence positions p with
      | none =>
        simp only [densityFilter, hfind, hcont]
        refine List.Pairwise.cons ?_ (ih occ)
        intro b hb i hdi
        rw [sentIdxAt, hfind] at hdi
        simp [hcont] at hdi
      | some j =>
        by_cases hocc : j ∈ occ
        · simp only [densityFilter, hfind, hcont, if_pos hocc]
          exact ih occ
        · simp only [densityFilter, hfind, hcont, if_neg hocc]
          refine List.Pairwise.cons ?_ (ih (j :: occ))
          intro b hb i hdi hbi
          rw [sentIdxAt, hfind] at hdi
          simp only [Option.some_bind, hcont, Option.some.injEq] at hdi
          have hav := densityFilter_avoid t positions rest (j :: occ) b hb i hbi
          exact hav (hdi ▸ List.mem_cons_self j occ)

theorem mem_occupiedSentences {t : Str} {positions : List (Nat × Nat)}
    {cs : List SComment} {a : SComment} {i : Nat} (ha : a ∈ cs)
    (hidx : sentIdxAt t positions a.phrase = some i) :
    i ∈ occupiedSentences cs t positions :=
  List.mem_filterMap.mpr ⟨a, ha, hidx⟩

theorem sentExclusive_of_pairwiseIdx {t : Str} {cs : List SComment}
    (h : cs.Pairwise (fun a b => ∀ i,
      sentIdxAt t (sentPositions t) a.phrase = some i →
      sentIdxAt t (sentPositions t) b.phrase ≠ some i)) :
    SentExclusive t cs := by
  refine h.imp ?_
  intro a b hab
  cases hoa : sentIdxOf t a.phrase with
  | none => exact Or.inl hoa
  | some i =>
    refine Or.inr ?_
    rw [hoa]
    intro heq
    exact hab i hoa heq.symm

/-! ## Claim C1 — sentence exclusivity -/

/-- C1 counterexample: a session accepts comments in two distinct sentences
("anxious …" in sentence 0, "hope …" in sentence 1); a later call on an
edited text in which the separating period was deleted keeps both comments
(both phrases are still present), and both now map to sentence 0 of the
current text — so after that analysis call two committed comments map to
the same sentence and sentence exclusivity does not hold. -/
theorem sentence_exclusivity_counterexample :
    demoSt2.comments = [demoA, demoB] ∧
    sentIdxOf demoText2 demoA.phrase = some 0 ∧
    sentIdxOf demoText2 demoB.phrase = some 0 ∧
    ¬ SentExclusive demoText2 demoSt2.comments := by
  exact ⟨by decide, by decide, by decide, by decide⟩

/-- C1 (amended): within a single analysis call, sentence exclusivity is
enforced and preserved — if no two committed comments mapped to the same
sentence of the call's text before, none do after, and the density filter
never appends a candidate whose containing sentence is already occupied by
a committed comment.  Across calls, the unconditional invariant can be
broken by an edit that merges two previously distinct commented sentences
(see the counterexample). -/
theorem sentence_exclusivity_amended (minLen : Nat) (catalog : Catalog)
    (st : AnalyzerState) (t : Str) (llm : AgentResult)
    (h : SentExclusive t st.comments) :
    SentExclusive t (analyzeStep minLen catalog st t llm).comments ∧
    (∀ vs, llm = .success vs →
      ∀ c ∈ enforceDensity (pruneDeleted st.comments t)
          (vs.map (normalizeVoice catalog)) t,
        ∀ i, sentIdxOf t c.phrase = some i →
          i ∉ occupiedSentences (pruneDeleted st.comments t) t
              (sentPositions t)) := by
  have hpr : SentExclusive t (pruneDeleted st.comments t) :=
    List.Pairwise.sublist (List.filter_sublist st.comments) h
  constructor
  · by_cases hl : (stripStr t).length < minLen
    · simpa only [analyzeStep, if_pos hl] using hpr
    · cases llm with
      | failure => simpa only [analyzeStep, if_neg hl] using hpr
      | success vs =>
        simp only [analyzeStep, if_neg hl]
        rw [SentExclusive, List.pairwise_append]
        refine ⟨hpr, ?_, ?_⟩
        · exact sentExclusive_of_pairwiseIdx
            (densityFilter_pairwise t (sentPositions t) _ _)
        · intro a ha b hb
          cases hoa : sentIdxOf t a.phrase with
          | none => exact Or.inl hoa
          | some i =>
            refine Or.inr ?_
            rw [hoa]
            intro heq
            have hbi : sentIdxAt t (sentPositions t) b.phrase = some i :=
              heq.symm
            have hocc : i ∈ occupiedSentences (pruneDeleted st.comments t) t
                (sentPositions t) := mem_occupiedSentences ha hoa
            exact densityFilter_avoid t (sentPositions t) _ _ b hb i hbi hocc
  · intro vs heq c hc i hidx
    subst heq
    exact densityFilter_avoid t (sentPositions t) _ _ c hc i hidx

/-- Witness for the amended sentence-exclusivity theorem: the first demo
call on the two-sentence text, starting from an empty (trivially
exclusive) session. -/
theorem sentence_exclusivity_amended_witness :
    SentExclusive demoText1
      (analyzeStep 10 [] freshAnalyzer demoText1
        (.success [demoA, demoB])).comments ∧
    (∀ vs, AgentResult.success [demoA, demoB] = .success vs →
      ∀ c ∈ enforceDensity (pruneDeleted freshAnalyzer.comments demoText1)
          (vs.map (normalizeVoice [])) demoText1,
        ∀ i, sentIdxOf demoText1 c.phrase = some i →
          i ∉ occupiedSentences
              (pruneDeleted freshAnalyzer.comments demoText1) demoText1
              (sentPositions demoText1)) :=
  sentence_exclusivity_amended 10 [] freshAnalyzer demoText1
    (.success [demoA, demoB]) (by decide)

/-! ## Supporting lemmas: sentence spans are ordered and disjoint -/

theorem findAux_ge (needle : Str) :
    ∀ (hay : Str) (i p : Nat), findAux needle hay i = some p → i ≤ p := by
  intro hay
  induction hay with
  | nil =>
    intro i p h
    simp only [findAux] at h
    split at h
    · cases h
      exact Nat.le_refl _
    · cases h
  | cons b bs ih =>
    intro i p h
    simp only [findAux] at h
    split at h
    · cases h
      exact Nat.le_refl _
    · exact Nat.le_of_succ_le (ih (i + 1) p h)

theorem sentPositionsAux_start_ge (tl : Str) :
    ∀ (ss : List Str) (pos : Nat) (q : Nat × Nat),
      q ∈ sentPositionsAux tl ss pos → pos ≤ q.1 := by
  intro ss
  induction ss with
  | nil =>
    intro pos q hq
    simp [sentPositionsAux] at hq
  | cons s rest ih =>
    intro pos q hq
    cases hf : findSubFrom tl (lowerStr s) pos with
    | none =>
      simp only [sentPositionsAux, hf] at hq
      exact ih pos q hq
    | some start =>
      rw [findSubFrom] at hf
      have hge : pos ≤ start := findAux_ge _ _ _ _ hf
      rw [sentPositionsAux, findSubFrom, hf] at hq
      rcases List.mem_cons.mp hq with rfl | hq
      · exact hge
      · exact Nat.le_trans (Nat.le_trans hge (Nat.le_add_right _ _))
          (ih _ q hq)

theorem sentPositions_ordered_aux (tl : Str) :
    ∀ (ss : List Str) (pos : Nat),
      (sentPositionsAux tl ss pos).Pairwise (fun a b => a.2 ≤ b.1) := by
  intro ss
  induction ss with
  | nil =>
    intro pos
    simp [sentPositionsAux]
  | cons s rest ih =>
    intro pos
    cases hf : findSubFrom tl (lowerStr s) pos with
    | none =>
      simp only [sentPositionsAux, hf]
      exact ih pos
    | some start =>
      simp only [sentPositionsAux, hf]
      exact List.Pairwise.cons
        (fun b hb => sentPositionsAux_start_ge tl rest _ b hb) (ih _)

theorem containingAux_spec :
    ∀ (ps : List (Nat × Nat)) (p k j : Nat),
      containingAux ps p k = some j →
      ∃ s e, ps.get? (j - k) = some (s, e) ∧ s ≤ p ∧ p < e ∧ k ≤ j := by
  intro ps
  induction ps with
  | nil =>
    intro p k j h
    simp [containingAux] at h
  | cons q rest ih =>
    intro p k j h
    obtain ⟨s, e⟩ := q
    simp only [containingAux] at h
    split at h
    case isTrue hif =>
      cases h
      exact ⟨s, e, by simp, hif.1, hif.2, Nat.le_refl _⟩
    case isFalse hif =>
      obtain ⟨s', e', hget, hs, hp, hk⟩ := ih p (k + 1) j h
      refine ⟨s', e', ?_, hs, hp, Nat.le_trans (Nat.le_succ _) hk⟩
      have hjk : j - k = (j - (k + 1)) + 1 := by omega
      rw [hjk]
      simpa using hget

theorem containingSentence_spec {ps : List (Nat × Nat)} {p j : Nat}
    (h : containingSentence ps p = some j) :
    ∃ s e, ps.get? j = some (s, e) ∧ s ≤ p ∧ p < e := by
  obtain ⟨s, e, hget, hs, hp, _⟩ := containingAux_spec ps p 0 j h
  exact ⟨s, e, by simpa using hget, hs, hp⟩

theorem spans_ordered_get {t : Str} {i j : Nat} {a b : Nat × Nat}
    (hij : i < j) (ha : (sentPositions t).get? i = some a)
    (hb : (sentPositions t).get? j = some b) : a.2 ≤ b.1 := by
  have hp : (sentPositions t).Pairwise (fun x y => x.2 ≤ y.1) :=
    sentPositions_ordered_aux (lowerStr t) (getSentences t) 0
  obtain ⟨hi, hga⟩ := List.get?_eq_some.mp ha
  obtain ⟨hj, hgb⟩ := List.get?_eq_some.mp hb
  have := (List.pairwise_iff_get.mp hp) ⟨i, hi⟩ ⟨j, hj⟩ hij
  rw [hga, hgb] at this
  exact this

/-! ## Claim C2 — no overlap of character ranges -/

/-- C2 counterexample: on the text "the cat sat. dog ran." the validator
accepts, within one call, both "sat. dog" (first occurrence range
`[8, 16)`, counted as sentence 0 since the occurrence starts there) and
"dog ran" (range `[13, 20)`, in sentence 1) — the two occurrence ranges
intersect, so the committed comments violate range non-overlap: the
validator checks sentence occupancy only and performs no character-range
check. -/
theorem range_overlap_counterexample :
    demoStR.comments = [demoP, demoQ] ∧
    occRange demoTextR demoP.phrase = some (8, 16) ∧
    occRange demoTextR demoQ.phrase = some (13, 20) ∧
    rangesIntersect (8, 16) (13, 20) ∧
    ¬ RangeExclusive demoTextR demoStR.comments := by
  have hcomments : demoStR.comments = [demoP, demoQ] := by decide
  refine ⟨hcomments, by decide, by decide, by decide, ?_⟩
  intro hre
  rw [RangeExclusive, hcomments] at hre
  have hPQ : rangeDistinct demoTextR demoP demoQ :=
    (List.pairwise_cons.mp hre).1 demoQ (List.mem_singleton_self _)
  exact hPQ (8, 16) (13, 20) (by decide) (by decide) (by decide)

/-- C2 (amended): the validator rejects a candidate only by sentence
occupancy; the character-range helper `_get_commented_regions` is never
invoked, and ranges can intersect when a phrase occurrence crosses a
sentence boundary (see the counterexample).  Range non-overlap does hold
in the boundary-respecting case: if the committed comments are sentence
exclusive, each located comment has a containing sentence and each
occurrence ends inside its containing sentence's span, then no two
comments' occurrence ranges intersect. -/
theorem range_disjointness_amended (t : Str) (cs : List SComment)
    (h1 : SentExclusive t cs)
    (h2 : ∀ c ∈ cs, (occRange t c.phrase).isSome = true →
        (sentIdxOf t c.phrase).isSome = true)
    (h3 : ∀ c ∈ cs, phraseWithinSentence t c.phrase = true) :
    RangeExclusive t cs := by
  refine h1.imp_of_mem ?_
  intro a b ha hb hab ra rb hra hrb hint
  rw [occRange] at hra hrb
  rcases Option.map_eq_some'.mp hra with ⟨pa, hfa, hra'⟩
  rcases Option.map_eq_some'.mp hrb with ⟨pb, hfb, hrb'⟩
  rcases Option.isSome_iff_exists.mp
      (h2 a ha (by rw [occRange, hfa]; rfl)) with ⟨ia, hia⟩
  rcases Option.isSome_iff_exists.mp
      (h2 b hb (by rw [occRange, hfb]; rfl)) with ⟨ib, hib⟩
  have hca : containingSentence (sentPositions t) pa = some ia := by
    rw [sentIdxOf, sentIdxAt, hfa] at hia
    simpa using hia
  have hcb : containingSentence (sentPositions t) pb = some ib := by
    rw [sentIdxOf, sentIdxAt, hfb] at hib
    simpa using hib
  obtain ⟨sa, ea, hga, hsa, hpa⟩ := containingSentence_spec hca
  obtain ⟨sb, eb, hgb, hsb, hpb⟩ := containingSentence_spec hcb
  have h3a : pa + a.phrase.length ≤ ea := by
    have := h3 a ha
    simp only [phraseWithinSentence, hfa, hca, hga] at this
    exact of_decide_eq_true this
  have h3b : pb + b.phrase.length ≤ eb := by
    have := h3 b hb
    simp only [phraseWithinSentence, hfb, hcb, hgb] at this
    exact of_decide_eq_true this
  have hne : ia ≠ ib := by
    rcases hab with hnone | hneq
    · rw [hia] at hnone
      exact Option.noConfusion hnone
    · rw [hia, hib] at hneq
      intro he
      exact hneq (by rw [he])
  subst hra' hrb'
  rw [rangesIntersect] at hint
  simp only at hint
  rcases Nat.lt_or_ge ia ib with hij | hge
  · have hord : ea ≤ sb := by
      have := spans_ordered_get hij hga hgb
      simpa using this
    have hm1 : min (pa + a.phrase.length) (pb + b.phrase.length)
        ≤ pa + a.phrase.length := Nat.min_le_left _ _
    have hm2 : pb ≤ max pa pb := Nat.le_max_right _ _
    omega
  · have hij : ib < ia := Nat.lt_of_le_of_ne hge (fun he => hne he.symm)
    have hord : eb ≤ sa := by
      have := spans_ordered_get hij hgb hga
      simpa using this
    have hm1 : min (pa + a.phrase.length) (pb + b.phrase.length)
        ≤ pb + b.phrase.length := Nat.min_le_right _ _
    have hm2 : pa ≤ max pa pb := Nat.le_max_left _ _
    omega

/-- Witness for the amended range-disjointness theorem: the two demo
comments on the unedited two-sentence text lie in distinct sentences,
within their sentences, and indeed have disjoint ranges. -/
theorem range_disjointness_amended_witness :
    RangeExclusive demoText1 [demoA, demoB] :=
  range_disjointness_amended demoText1 [demoA, demoB] (by decide)
    (by decide) (by decide)

end Ink
